import Mathlib

/-!
Verification of the identity-translation core of the vcluster repository.

Go strings are modelled as lists of bytes (`List Nat`), since the source
manipulates strings at the byte level (`len`, slicing, `sha256.Sum256([]byte(s))`).
Go maps are modelled as association lists; map iteration is modelled as
iteration over the list in order (the algorithms verified here are
insensitive to iteration order in their observable results).
-/

namespace VCluster

/-- A Go string, as its byte sequence. -/
abbrev GoStr := List Nat

/-- Byte list of an ASCII string literal (used to write the source's literals). -/
def strOf (s : String) : GoStr := s.data.map Char.toNat

/-- Model of `strings.HasPrefix p s` is `hasPfx p s`: `p` is a leading byte sequence of `s`. -/
def hasPfx : GoStr → GoStr → Bool
  | [], _ => true
  | _ :: _, [] => false
  | a :: ps, b :: ss => a == b && hasPfx ps ss

/-- Model of `strings.Contains s pat` (spec-side helper for the `".-"` substring claims). -/
def containsSub : GoStr → GoStr → Bool
  | [], pat => hasPfx pat []
  | c :: rest, pat => hasPfx pat (c :: rest) || containsSub rest pat

/-- Last byte of a string, if any. -/
def lastOf : GoStr → Option Nat
  | [] => none
  | [a] => some a
  | _ :: b :: rest => lastOf (b :: rest)

/-- Model of `strings.Join` with the given separator. -/
def goJoin (sep : GoStr) : List GoStr → GoStr
  | [] => []
  | [x] => x
  | x :: y :: xs => x ++ sep ++ goJoin sep (y :: xs)

/-- Model of `strings.ReplaceAll s old new` (Go `strings.Replace` with `n = -1`):
scan left to right; at each occurrence of `old` emit `new` and continue
scanning after the occurrence (the emitted `new` is not rescanned). -/
def replaceAll (s old new : GoStr) : GoStr :=
  match s with
  | [] => []
  | c :: rest =>
    if h : old ≠ [] ∧ hasPfx old (c :: rest) = true then
      new ++ replaceAll ((c :: rest).drop old.length) old new
    else
      c :: replaceAll rest old new
termination_by s.length
decreasing_by
  · simp only [List.length_drop, List.length_cons]
    have h1 : 0 < old.length := List.length_pos.mpr h.1
    omega
  · simp only [List.length_cons]
    omega

/-- Model of `strings.SplitN s sep 2`-style full split (`strings.Split`), for nonempty `sep`.
`goSplit [] sep = [[]]`, matching Go's `strings.Split("", sep) = [""]`. -/
def goSplit (s sep : GoStr) : List GoStr :=
  match s with
  | [] => [[]]
  | c :: rest =>
    if h : sep ≠ [] ∧ hasPfx sep (c :: rest) = true then
      [] :: goSplit ((c :: rest).drop sep.length) sep
    else
      match goSplit rest sep with
      | [] => [[c]]
      | seg :: more => (c :: seg) :: more
termination_by s.length
decreasing_by
  · simp only [List.length_drop, List.length_cons]
    have h1 : 0 < sep.length := List.length_pos.mpr h.1
    omega
  · simp only [List.length_cons]
    omega

/-! ## SHA-256 (`crypto/sha256`), over byte lists, words as `Nat` mod `2^32` -/

/-- Truncation to a 32-bit word. -/
def u32 (n : Nat) : Nat := n % 4294967296

/-- Right rotation of a 32-bit word. -/
def rotr32 (x n : Nat) : Nat := u32 ((x >>> n) ||| (x <<< (32 - n)))

/-- SHA-256 `Ch` function. -/
def shaCh (x y z : Nat) : Nat := (x &&& y) ^^^ ((4294967295 - u32 x) &&& z)

/-- SHA-256 `Maj` function. -/
def shaMaj (x y z : Nat) : Nat := (x &&& y) ^^^ (x &&& z) ^^^ (y &&& z)

/-- SHA-256 big sigma 0. -/
def bs0 (x : Nat) : Nat := rotr32 x 2 ^^^ rotr32 x 13 ^^^ rotr32 x 22

/-- SHA-256 big sigma 1. -/
def bs1 (x : Nat) : Nat := rotr32 x 6 ^^^ rotr32 x 11 ^^^ rotr32 x 25

/-- SHA-256 small sigma 0. -/
def ss0 (x : Nat) : Nat := rotr32 x 7 ^^^ rotr32 x 18 ^^^ (x >>> 3)

/-- SHA-256 small sigma 1. -/
def ss1 (x : Nat) : Nat := rotr32 x 17 ^^^ rotr32 x 19 ^^^ (x >>> 10)

/-- SHA-256 round constants (FIPS 180-4), written in decimal:
the fractional parts of the cube roots of the first 64 primes. -/
def shaK : List Nat :=
  [1116352408, 1899447441, 3049323471, 3921009573, 961987163, 1508970993,
   2453635748, 2870763221, 3624381080, 310598401, 607225278, 1426881987,
   1925078388, 2162078206, 2614888103, 3248222580, 3835390401, 4022224774,
   264347078, 604807628, 770255983, 1249150122, 1555081692, 1996064986,
   2554220882, 2821834349, 2952996808, 3210313671, 3336571891, 3584528711,
   113926993, 338241895, 666307205, 773529912, 1294757372, 1396182291,
   1695183700, 1986661051, 2177026350, 2456956037, 2730485921, 2820302411,
   3259730800, 3345764771, 3516065817, 3600352804, 4094571909, 275423344,
   430227734, 506948616, 659060556, 883997877, 958139571, 1322822218,
   1537002063, 1747873779, 1955562222, 2024104815, 2227730452, 2361852424,
   2428436474, 2756734187, 3204031479, 3329325298]

/-- Group 4 bytes (big endian) into 32-bit words. -/
def bytesToWords : List Nat → List Nat
  | b0 :: b1 :: b2 :: b3 :: rest => (((b0 * 256 + b1) * 256 + b2) * 256 + b3) :: bytesToWords rest
  | _ => []

/-- One message-schedule extension step: append `w[t] = ss1 w[t-2] + w[t-7] + ss0 w[t-15] + w[t-16]`. -/
def extendStep (w : List Nat) : List Nat :=
  let n := w.length
  w ++ [u32 (ss1 (w.getD (n - 2) 0) + w.getD (n - 7) 0 + ss0 (w.getD (n - 15) 0) + w.getD (n - 16) 0)]

/-- The 64-word message schedule of one block. -/
def buildSchedule (w16 : List Nat) : List Nat :=
  (List.range 48).foldl (fun w _ => extendStep w) w16

/-- SHA-256 working state (eight 32-bit words). -/
structure Hash8 where
  a : Nat
  b : Nat
  c : Nat
  d : Nat
  e : Nat
  f : Nat
  g : Nat
  h : Nat

/-- One SHA-256 compression round; `kw` is the pair (round constant, schedule word). -/
def compressStep (st : Hash8) (kw : Nat × Nat) : Hash8 :=
  let t1 := u32 (st.h + bs1 st.e + shaCh st.e st.f st.g + kw.1 + kw.2)
  let t2 := u32 (bs0 st.a + shaMaj st.a st.b st.c)
  ⟨u32 (t1 + t2), st.a, st.b, st.c, u32 (st.d + t1), st.e, st.f, st.g⟩

/-- Compress one 64-byte block into the running hash state. -/
def compressBlock (st : Hash8) (block : List Nat) : Hash8 :=
  let ws := buildSchedule (bytesToWords block)
  let fin := (shaK.zip ws).foldl compressStep st
  ⟨u32 (st.a + fin.a), u32 (st.b + fin.b), u32 (st.c + fin.c), u32 (st.d + fin.d),
   u32 (st.e + fin.e), u32 (st.f + fin.f), u32 (st.g + fin.g), u32 (st.h + fin.h)⟩

/-- Split a byte list into 64-byte blocks. -/
def chunk64 : List Nat → List (List Nat)
  | [] => []
  | b :: rest => ((b :: rest).take 64) :: chunk64 ((b :: rest).drop 64)
termination_by bs => bs.length
decreasing_by
  simp only [List.length_drop, List.length_cons]
  omega

/-- Big-endian encoding of `n` in `width` bytes. -/
def toBE (width n : Nat) : List Nat :=
  (List.range width).map (fun i => (n >>> (8 * (width - 1 - i))) % 256)

/-- SHA-256 padding: `0x80`, zeros to 56 mod 64, 8-byte big-endian bit length. -/
def padMsg (msg : List Nat) : List Nat :=
  msg ++ [128] ++ List.replicate ((119 - msg.length % 64) % 64) 0 ++ toBE 8 (msg.length * 8)

/-- Model of `sha256.Sum256`: the 32-byte SHA-256 digest of a byte list. -/
def sha256 (msg : List Nat) : List Nat :=
  let fin := (chunk64 (padMsg msg)).foldl compressBlock
    ⟨1779033703, 3144134277, 1013904242, 2773480762,
     1359893119, 2600822924, 528734635, 1541459225⟩
  toBE 4 fin.a ++ toBE 4 fin.b ++ toBE 4 fin.c ++ toBE 4 fin.d ++
  toBE 4 fin.e ++ toBE 4 fin.f ++ toBE 4 fin.g ++ toBE 4 fin.h

/-- Lowercase hex digit of a value below 16 (`encoding/hex` alphabet). -/
def hexDigit (n : Nat) : Nat := if n < 10 then 48 + n else 87 + n

/-- Model of `hex.EncodeToString`: two lowercase hex characters per byte. -/
def hexEncode (bs : List Nat) : GoStr :=
  (bs.map (fun b => [hexDigit (b / 16), hexDigit (b % 16)])).flatten

/-- Model of `SafeConcatName` (src/unnamed/part_000, lines 380-387): join the parts with
`"-"`; if longer than 63 bytes, keep the first 52 bytes, append `"-"` and the
first 10 hex characters of the SHA-256 digest of the full join, then replace
every occurrence of `".-"` with `"-"`. -/
def SafeConcatName (name : List GoStr) : GoStr :=
  let fullPath := goJoin [45] name
  if fullPath.length > 63 then
    replaceAll (fullPath.take 52 ++ [45] ++ (hexEncode (sha256 fullPath)).take 10) [46, 45] [45]
  else fullPath

/-! ## Go maps as association lists -/

/-- A Go `map[string]string`; keys are kept distinct by `mapSet`. -/
abbrev GoMap := List (GoStr × GoStr)

/-- Two-valued map lookup (`v, ok := m[k]`). -/
def mapGet (m : GoMap) (k : GoStr) : Option GoStr :=
  (m.find? (fun kv => kv.1 == k)).map (fun kv => kv.2)

/-- One-valued map lookup (`m[k]`, yielding `""` when absent). -/
def mapIndex (m : GoMap) (k : GoStr) : GoStr := (mapGet m k).getD []

/-- Map update `m[k] = v`. -/
def mapSet (m : GoMap) (k v : GoStr) : GoMap :=
  if m.any (fun kv => kv.1 == k) then
    m.map (fun kv => if kv.1 == k then (kv.1, v) else kv)
  else m ++ [(k, v)]

/-- Map deletion `delete(m, k)`. -/
def mapDel (m : GoMap) (k : GoStr) : GoMap := m.filter (fun kv => !(kv.1 == k))

/-- Model of `exists` (src/unnamed/part_000, lines 401-409): membership of a key in a slice. -/
def existsIn (a : List GoStr) (k : GoStr) : Bool := a.any (fun i => i == k)

/-- Lexicographic byte order on Go strings (the order used by `sort.Strings`). -/
def goStrLe : GoStr → GoStr → Bool
  | [], _ => true
  | _ :: _, [] => false
  | a :: as_, b :: bs => if a < b then true else if b < a then false else goStrLe as_ bs

/-- Insert into a `goStrLe`-sorted list. -/
def insertSorted (x : GoStr) : List GoStr → List GoStr
  | [] => [x]
  | y :: ys => if goStrLe x y then x :: y :: ys else y :: insertSorted x ys

/-- Model of `sort.Strings`: sort a string slice lexicographically. -/
def sortStrings (l : List GoStr) : List GoStr := l.foldr insertSorted []

/-- Insert into a list of pairs sorted by key. -/
def insertSortedPair (x : GoStr × GoStr) : GoMap → GoMap
  | [] => [x]
  | y :: ys => if goStrLe x.1 y.1 then x :: y :: ys else y :: insertSortedPair x ys

/-- Canonical (key-sorted) form of a map, to compare maps independently of
insertion order. -/
def mapCanon (m : GoMap) : GoMap := m.foldr insertSortedPair []

/-! ## Metadata merge engine (src/unnamed/part_000, lines 426-504) -/

/-- Model of `copyMaps` (lines 109-129): copy `fromMap` entries not excluded, then copy
the excluded keys of `toMap` through unconditionally. -/
def copyMaps (fromMap toMap : GoMap) (excludeKey : GoStr → Bool) : GoMap :=
  let r1 := fromMap.foldl (fun acc kv => if excludeKey kv.1 then acc else mapSet acc kv.1 kv.2) []
  toMap.foldl (fun acc kv => if excludeKey kv.1 then mapSet acc kv.1 kv.2 else acc) r1

/-- Source structure `ApplyMapsOptions` (lines 473-476). -/
structure ApplyMapsOptions where
  ManagedKeys : List GoStr
  ExcludeKeys : List GoStr

/-- Model of `applyMaps` (lines 478-504): ownership-aware merge. Copy non-excluded
source entries (recording their keys as managed); copy a target entry through
if its key is excluded (unconditionally), skip it if managed now or managed
previously, otherwise keep it. Returns the merged map and the sorted
newline-joined managed-key list. -/
def applyMaps (fromMap toMap : GoMap) (opts : ApplyMapsOptions) : GoMap × GoStr :=
  let s1 := fromMap.foldl
    (fun (acc : GoMap × List GoStr) kv =>
      if existsIn opts.ExcludeKeys kv.1 then acc
      else (mapSet acc.1 kv.1 kv.2, acc.2 ++ [kv.1]))
    ([], [])
  let retMap := toMap.foldl
    (fun acc kv =>
      if existsIn opts.ExcludeKeys kv.1 then mapSet acc kv.1 kv.2
      else if existsIn s1.2 kv.1 || existsIn opts.ManagedKeys kv.1 then acc
      else mapSet acc kv.1 kv.2)
    s1.1
  (retMap, goJoin [10] (sortStrings s1.2))

/-- Modelled from the spec: the reserved bookkeeping annotation key listing the
annotation keys managed by the virtual side (`ManagedAnnotationsAnnotation`;
the constant's definition is not among the provided sources). -/
def ManagedAnnotsKey : GoStr := strOf "vcluster.loft.sh/managed-annotations"

/-- Modelled from the spec: the reserved bookkeeping annotation key listing the
label keys managed by the virtual side (`ManagedLabelsAnnotation`; the
constant's definition is not among the provided sources). -/
def ManagedLabelsKey : GoStr := strOf "vcluster.loft.sh/managed-labels"

/-- The annotation merge call site of `applyMaps` (lines 431-449, source name
`applyAnnotations`): prior managed keys come from the target's bookkeeping
annotation, the bookkeeping keys are always excluded, and the new managed-key
list is stored back (or removed when empty). -/
def applyAnnots (fromAnnots toAnnots : GoMap) (excludeKeys : List GoStr) : GoMap :=
  let excludedKeys := [ManagedAnnotsKey, ManagedLabelsKey] ++ excludeKeys
  let r := applyMaps fromAnnots toAnnots
    ⟨goSplit (mapIndex toAnnots ManagedAnnotsKey) (strOf "\n"), excludedKeys⟩
  if r.2 = [] then mapDel r.1 ManagedAnnotsKey
  else mapSet r.1 ManagedAnnotsKey r.2

/-! ## Translator, sync context, and the multi-namespace mode
(src/pkg/util/translate/multi_namespace.go) -/

/-- Modelled from the spec: reserved label keys produced on host objects
(ownership marker, origin-namespace marker, controller label, namespace label
key space). Their defining constants are not among the provided sources; only
their role ("a small fixed set of system labels" under the
`vcluster.loft.sh/` key space) is specified. -/
def MarkerLabel : GoStr := strOf "vcluster.loft.sh/managed-by"

/-- Modelled from the spec: the origin-namespace marker label key (see `MarkerLabel`). -/
def NamespaceLabel : GoStr := strOf "vcluster.loft.sh/namespace"

/-- Modelled from the spec: the controller label key passed through from the
host side (see `MarkerLabel`). -/
def ControllerLabel : GoStr := strOf "vcluster.loft.sh/controlled-by"

/-- Modelled from the spec: the key space of per-namespace labels (see `MarkerLabel`). -/
def NamespaceLabelPfx : GoStr := strOf "vcluster.loft.sh/ns-label-"

/-- Modelled from the spec: the system's reserved label key space used by
cluster-scoped label translation (`LabelPrefix`; the constant's definition is
not among the provided sources — the spec only requires it to be the reserved
key space consulted by `strings.HasPrefix`). -/
def LabelPfx : GoStr := strOf "vcluster.loft.sh/label"

/-- The ambient sync state consulted by the translator:
`vnsMapping` models `pro.VirtualNamespaceMatchesMapping` (the administrator's
virtual-namespace pins, an external collaborator); `syncedLabels` models
`keyMatchesSyncedLabels` (the "always synced" label set from configuration,
modelled from the spec because its definition is not among the provided
sources); `store` models `ctx.Mappings.Store()`'s cluster-label table mapping
a host label key to the virtual key it was derived from (`none` models an
absent store). -/
structure SyncContext where
  vnsMapping : GoStr → Option GoStr
  syncedLabels : GoStr → Bool
  store : Option GoMap

/-- Modelled from the spec: `keyMatchesSyncedLabels` — whether the key matches
the configured "always synced" system labels. -/
def keyMatchesSyncedLabels (ctx : SyncContext) (key : GoStr) : Bool :=
  ctx.syncedLabels key

/-- Modelled from the spec: `recordLabelCluster` records the forward mapping
(virtual key → derived host key) into the mapping store so the reverse lookup
can later succeed; absent store or empty keys make it a no-op. -/
def recordLabelCluster (ctx : SyncContext) (vKey pKey : GoStr) : SyncContext :=
  match ctx.store with
  | none => ctx
  | some st =>
    if vKey = [] || pKey = [] then ctx
    else { ctx with store := some (mapSet st pKey vKey) }

/-- Model of `HostToVirtualLabelCluster`: the store's reverse lookup of a host label key. -/
def storeHostToVirtualLabelCluster (st : GoMap) (pLabel : GoStr) : Option GoStr :=
  mapGet st pLabel

/-- The `multiNamespace` translator value (multi_namespace.go, lines 24-26);
`VClusterName` (a package-level variable) is passed explicitly as
`vclusterName` wherever the source reads it. -/
structure MultiNamespace where
  currentNamespace : GoStr

/-- Model of `multiNamespace.SingleNamespaceTarget` (lines 28-30). -/
def MultiNamespace.SingleNamespaceTarget (_ : MultiNamespace) : Bool := false

/-- Model of `multiNamespace.HostNameCluster` (lines 42-47). -/
def MultiNamespace.HostNameCluster (s : MultiNamespace) (vclusterName : GoStr) (name : GoStr) : GoStr :=
  if name = [] then []
  else SafeConcatName [strOf "vcluster", name, strOf "x", s.currentNamespace, strOf "x", vclusterName]

/-- Model of `multiNamespace.getNamespacePrefix` (lines 79-81). -/
def MultiNamespace.getNamespacePfx (_ : MultiNamespace) : GoStr := strOf "vcluster"

/-- Model of `getNamespaceSuffix` (lines 96-99): first 8 hex characters of the SHA-256
digest of `currentNamespace + "x" + suffix`. -/
def getNamespaceSuffix (currentNamespace sfx : GoStr) : GoStr :=
  (hexEncode (sha256 (currentNamespace ++ strOf "x" ++ sfx))).take 8

/-- Model of `hostNamespace` (lines 91-94): `prefix + "-" + first8hex(sha256(vNamespace))
+ "-" + getNamespaceSuffix(currentNamespace, suffix)`. -/
def hostNamespace (currentNamespace vNamespace nsPfx sfx : GoStr) : GoStr :=
  nsPfx ++ [45] ++ (hexEncode (sha256 vNamespace)).take 8 ++ [45] ++ getNamespaceSuffix currentNamespace sfx

/-- Model of `multiNamespace.HostNamespace` (lines 83-89): an administrator namespace
pin wins; otherwise the hashed derivation. -/
def MultiNamespace.HostNamespace (s : MultiNamespace) (vclusterName : GoStr) (ctx : SyncContext)
    (vNamespace : GoStr) : GoStr :=
  match ctx.vnsMapping vNamespace with
  | some pNamespace => pNamespace
  | none => hostNamespace s.currentNamespace vNamespace (s.getNamespacePfx) vclusterName

/-- Model of `hostLabelCluster` (lines 147-150): the derived host key of a
cluster-scoped virtual label key. -/
def hostLabelCluster (key vClusterNamespace vclusterName : GoStr) : GoStr :=
  SafeConcatName [LabelPfx, vClusterNamespace, strOf "x", vclusterName, strOf "x",
    (hexEncode (sha256 key)).take 10]

/-- Model of `multiNamespace.HostLabelCluster` (lines 127-137): synced labels pass
through; otherwise derive the host key and record the forward mapping
(the deferred `recordLabelCluster`) into the store. -/
def MultiNamespace.HostLabelCluster (s : MultiNamespace) (vclusterName : GoStr) (ctx : SyncContext)
    (key : GoStr) : GoStr × SyncContext :=
  if keyMatchesSyncedLabels ctx key then (key, ctx)
  else
    let retLabel := hostLabelCluster key s.currentNamespace vclusterName
    (retLabel, recordLabelCluster ctx key retLabel)

/-- Model of `multiNamespace.VirtualLabelCluster` (lines 105-125): synced labels and
keys outside the reserved key space pass through as translatable; otherwise
consult the store; a hit is translatable, a miss is reported not translatable
(`"", false`). The deferred `recordLabelCluster` runs on the consulted paths. -/
def MultiNamespace.VirtualLabelCluster (_ : MultiNamespace) (ctx : SyncContext)
    (pLabel : GoStr) : GoStr × Bool × SyncContext :=
  if keyMatchesSyncedLabels ctx pLabel then (pLabel, true, ctx)
  else if !(hasPfx LabelPfx pLabel) then (pLabel, true, ctx)
  else
    match ctx.store with
    | some st =>
      match storeHostToVirtualLabelCluster st pLabel with
      | some vLabel => (vLabel, true, recordLabelCluster ctx vLabel pLabel)
      | none => ([], false, recordLabelCluster ctx [] pLabel)
    | none => ([], false, recordLabelCluster ctx [] pLabel)

/-- Model of `multiNamespace.VirtualLabel` (lines 139-141): identity, translatable. -/
def MultiNamespace.VirtualLabel (_ : MultiNamespace) (pLabel _vNamespace : GoStr) : GoStr × Bool :=
  (pLabel, true)

/-- Model of `multiNamespace.HostLabel` (lines 143-145): identity. -/
def MultiNamespace.HostLabel (_ : MultiNamespace) (vLabel _vNamespace : GoStr) : GoStr :=
  vLabel

/-- Model of `multiNamespace.MarkerLabelCluster` (lines 101-103). -/
def MultiNamespace.MarkerLabelCluster (s : MultiNamespace) (vclusterName : GoStr) : GoStr :=
  SafeConcatName [s.currentNamespace, strOf "x", vclusterName]

/-- The `Default` translator's interface as used by the label-map functions:
mode flag and the namespaced-scope key translations (pure in both modes). -/
structure Translator where
  SingleNamespaceTarget : Bool
  VirtualLabel : GoStr → GoStr → GoStr × Bool
  HostLabel : GoStr → GoStr → GoStr

/-! ## Label maps and selectors (src/unnamed/part_000, lines 71-296) -/

/-- Model of `VirtualLabelsMap` (lines 71-95). Nil maps are modelled as `none`. The
translate-back loop ranges over a snapshot of the entries, deleting each key
and re-inserting its translation when one is reported. -/
def VirtualLabelsMap (tr : Translator) (ctx : SyncContext) (pLabels vLabels : Option GoMap)
    (vNamespace : GoStr) (excluded : List GoStr) : Option GoMap :=
  match pLabels with
  | none => none
  | some pl =>
    if (ctx.vnsMapping vNamespace).isSome || !tr.SingleNamespaceTarget then
      some pl
    else
      let excluded2 := excluded ++ [MarkerLabel, NamespaceLabel, ControllerLabel]
      let retLabels := copyMaps pl (vLabels.getD [])
        (fun key => existsIn excluded2 key || hasPfx NamespaceLabelPfx key)
      some (retLabels.foldl
        (fun acc kv =>
          let acc2 := mapDel acc kv.1
          let t := tr.VirtualLabel kv.1 vNamespace
          if t.2 then mapSet acc2 t.1 kv.2 else acc2)
        retLabels)

/-- Model of `HostLabelsMap` (lines 131-170). Nil maps are modelled as `none`;
`VClusterName` is the explicit `vclusterName` argument. -/
def HostLabelsMap (tr : Translator) (ctx : SyncContext) (vclusterName : GoStr)
    (vLabels pLabels : Option GoMap) (vNamespace : GoStr) : Option GoMap :=
  match vLabels with
  | none => none
  | some vl =>
    if (ctx.vnsMapping vNamespace).isSome || !tr.SingleNamespaceTarget then
      some vl
    else
      let n1 := vl.foldl (fun acc kv => mapSet acc (tr.HostLabel kv.1 vNamespace) kv.2) []
      let n2 := mapSet n1 MarkerLabel vclusterName
      let n3 := if vNamespace ≠ [] then mapSet n2 NamespaceLabel vNamespace
                else mapDel n2 NamespaceLabel
      let pl := pLabels.getD []
      let n4 := if mapIndex pl ControllerLabel ≠ [] then
                  mapSet n3 ControllerLabel (mapIndex pl ControllerLabel)
                else n3
      some (pl.foldl
        (fun acc kv =>
          if hasPfx (strOf "vcluster.loft.sh/") kv.1 then acc
          else if (mapGet acc kv.1).isSome then acc
          else mapSet acc kv.1 kv.2)
        n4)

/-- Whether an association list binds each key at most once. -/
def keysNodup : GoMap → Bool
  | [] => true
  | kv :: rest => !(rest.any (fun kv2 => kv2.1 == kv.1)) && keysNodup rest

/-- A `metav1.LabelSelectorRequirement`: key, operator, value list. -/
structure LabelSelectorRequirement where
  key : GoStr
  operator : GoStr
  values : List GoStr
  deriving DecidableEq

/-- A `metav1.LabelSelector` (nil match-labels map modelled as `none`). -/
structure LabelSelector where
  matchLabels : Option GoMap
  matchExpressions : List LabelSelectorRequirement
  deriving DecidableEq

/-- Model of `virtualLabelSelector` (src/unnamed/part_000, lines 230-261): rewrite every
equality-match key and requirement key through `labelFunc`; a key whose
translation is not known (`ok = false`) is kept unchanged. Operators and
values pass through. -/
def virtualLabelSelector (labelFunc : GoStr → GoStr × Bool)
    (labelSelector : Option LabelSelector) : Option LabelSelector :=
  match labelSelector with
  | none => none
  | some ls =>
    let ml := match ls.matchLabels with
      | none => none
      | some m => some (m.foldl
          (fun acc kv =>
            let t := labelFunc kv.1
            let pLabel := if t.2 then t.1 else kv.1
            mapSet acc pLabel kv.2)
          [])
    let mes := ls.matchExpressions.map (fun r =>
      let t := labelFunc r.key
      let pLabel := if t.2 then t.1 else r.key
      { key := pLabel, operator := r.operator, values := r.values })
    some { matchLabels := ml, matchExpressions := mes }

/-! ## Ownership reference builder (src/unnamed/part_000, lines 354-378) -/

/-- A `metav1.OwnerReference`. -/
structure OwnerReference where
  apiVersion : GoStr
  kind : GoStr
  name : GoStr
  uid : GoStr
  controller : Option Bool
  deriving DecidableEq

/-- The object metadata consulted by `GetOwnerReference`: name, unique
identifier, type information (the `meta.TypeAccessor` view) and owner
references. -/
structure KObject where
  name : GoStr
  uid : GoStr
  apiVersion : GoStr
  kind : GoStr
  ownerReferences : List OwnerReference

/-- Model of `metav1.GetControllerOf`: the owner reference whose controller flag is set. -/
def GetControllerOf (obj : KObject) : Option OwnerReference :=
  obj.ownerReferences.find? (fun r => r.controller == some true)

/-- Model of `GetOwnerReference` (lines 354-378): nil when the package-level `Owner` is
unset or lacks name, UID, API version or kind; otherwise a single reference to
the owner whose controller flag records whether the passed object already has
a controller. -/
def GetOwnerReference (owner : Option KObject) (object : Option KObject) : List OwnerReference :=
  match owner with
  | none => []
  | some o =>
    if o.name = [] || o.uid = [] then []
    else if o.apiVersion = [] || o.kind = [] then []
    else
      let isController := match object with
        | none => false
        | some obj => (GetControllerOf obj).isSome
      [{ apiVersion := o.apiVersion, kind := o.kind, name := o.name, uid := o.uid,
         controller := some isController }]

/-! ## Schema reconciler (src/unnamed/part_000, lines 506-669)

`EnsureCRDFromPhysicalCluster` is an orchestration over external cluster
backends. Each backend call site is given its outcome by an environment
(oracle) value, so the function becomes a pure function of that trace.
-/

/-- Go errors, as far as the reconciler distinguishes them:
`kerrors.IsNotFound`, `kerrors.IsAlreadyExists`, opaque backend errors, plain
`fmt.Errorf` messages, and `%w`/`errors.Wrap`-style wrapping. -/
inductive GoErr where
  | notFound
  | alreadyExists
  | backend (tag : Nat)
  | msg (m : GoStr)
  | wrap (m : GoStr) (inner : GoErr)
  deriving DecidableEq

/-- Model of `kerrors.IsNotFound`. -/
def GoErr.isNotFound : GoErr → Bool
  | .notFound => true
  | _ => false

/-- Model of `kerrors.IsAlreadyExists`. -/
def GoErr.isAlreadyExists : GoErr → Bool
  | .alreadyExists => true
  | _ => false

/-- A `schema.GroupVersionKind`. -/
structure GVK where
  group : GoStr
  version : GoStr
  kind : GoStr

/-- Model of `GroupVersionKind.String()`: `group "/" version ", Kind=" kind`
(just `version` when the group is empty). -/
def GVK.goString (g : GVK) : GoStr :=
  (if g.group = [] then g.version else g.group ++ strOf "/" ++ g.version) ++ strOf ", Kind=" ++ g.kind

/-- A `schema.GroupVersionResource`. -/
structure GVR where
  group : GoStr
  version : GoStr
  resource : GoStr

/-- Model of `GroupResource.String()`: `resource "." group`, or just `resource` when the
group is empty. -/
def GVR.groupResourceString (g : GVR) : GoStr :=
  if g.group = [] then g.resource else g.resource ++ strOf "." ++ g.group

/-- A `metav1.APIResource` as consulted here. -/
structure APIResource where
  name : GoStr
  group : GoStr
  kind : GoStr
  namespaced : Bool

/-- A CRD readiness condition (`Type`/`Status` strings). -/
structure CRDCondition where
  condType : GoStr
  status : GoStr

/-- A `CustomResourceDefinitionVersion`; `hasStatusSubresource` models
`Subresources != nil && Subresources.Status != nil`. -/
structure CRDVersion where
  name : GoStr
  served : Bool
  storage : Bool
  hasStatusSubresource : Bool

/-- A `CustomResourceDefinition`, with the fields the reconciler reads or
strips; `conditions` is `Status.Conditions`, booleans model presence of the
corresponding stripped fields. -/
structure CRD where
  uid : GoStr
  resourceVersion : GoStr
  hasManagedFields : Bool
  hasOwnerReferences : Bool
  conditions : List CRDCondition
  preserveUnknownFields : Bool
  hasConversion : Bool
  versions : List CRDVersion
  scope : GoStr

/-- The environment of one `EnsureCRDFromPhysicalCluster` run: the outcome of
every external call site, in program order. `polls` lists the successive
results of the readiness-wait `Get` calls. -/
structure Env where
  newVClientErr : Option GoErr
  vDiscovery : Except GoErr (List APIResource)
  vGetCRD : GoStr → Except GoErr CRD
  pDiscovery : Except GoErr (List APIResource)
  newPClientErr : Option GoErr
  pGetCRD : GoStr → Except GoErr CRD
  createErr : Option GoErr
  polls : List (Except GoErr CRD)

/-- Model of `KindExists` (lines 651-669) over the discovery outcome: the api resource
whose kind matches, else a not-found error. -/
def KindExists (res : Except GoErr (List APIResource)) (gvk : GVK) : Except GoErr APIResource :=
  match res with
  | .error e => .error e
  | .ok rs =>
    match rs.find? (fun r => r.kind == gvk.kind) with
    | some r => .ok r
    | none => .error .notFound

/-- Model of `ConvertKindToResource` (lines 629-647) over the discovery outcome: the
resource name of the kind, else a not-found error. -/
def ConvertKindToResource (res : Except GoErr (List APIResource)) (gvk : GVK) : Except GoErr GVR :=
  match res with
  | .error e => .error e
  | .ok rs =>
    match rs.find? (fun r => r.kind == gvk.kind) with
    | some r => .ok ⟨gvk.group, gvk.version, r.name⟩
    | none => .error .notFound

/-- Whether a condition list carries `Established = True` (the readiness test
of the wait loop body, lines 607-613). -/
def isEstablishedConds (conds : List CRDCondition) : Bool :=
  conds.any (fun c => c.condType == strOf "Established" && c.status == strOf "True")

/-- The readiness-wait loop (lines 601-616) over the trace of poll outcomes:
a fetch error aborts the wait wrapped as `"retrieve crd in virtual cluster"`;
an established CRD ends it; a non-ready CRD retries. `none` models a run still
polling when the trace ends (the Go loop retries with backoff, effectively
unbounded). -/
def waitEstablished : List (Except GoErr CRD) → Option (Except GoErr Unit)
  | [] => none
  | r :: rest =>
    match r with
    | .error e => some (.error (.wrap (strOf "retrieve crd in virtual cluster") e))
    | .ok crd => if isEstablishedConds crd.conditions then some (.ok ()) else waitEstablished rest

/-- Model of `crdName` computation of the exists-branch (lines 520-525). -/
def crdNameOf (apiResource : APIResource) (gvk : GVK) : GoStr :=
  apiResource.name ++
    (if apiResource.group ≠ [] then strOf "." ++ apiResource.group
     else if gvk.group ≠ [] then strOf "." ++ gvk.group
     else [])

/-- Whether the version named `ver` declares a status subresource (the version
scans of lines 533-540 and 578-589). -/
def versionHasStatus (vs : List CRDVersion) (ver : GoStr) : Bool :=
  match vs.find? (fun v => v.name == ver) with
  | some v => v.hasStatusSubresource
  | none => false

/-- The wrapped readiness-wait failure message naming the kind (line 618). -/
def waitWrapMsg (gvk : GVK) : GoStr :=
  strOf "failed to wait for CRD " ++ gvk.goString ++ strOf " to become ready"

/-- Model of `EnsureCRDFromPhysicalCluster` (lines 506-627) as a function of its call
trace. The result is `(isClusterScoped, hasStatusSubresource, err)`; `none`
models a run that is still inside the readiness wait when the poll trace ends. -/
def EnsureCRDFromPhysicalCluster (env : Env) (gvk : GVK) : Option (Bool × Bool × Option GoErr) :=
  match env.newVClientErr with
  | some e => some (false, false, some e)
  | none =>
    match KindExists env.vDiscovery gvk with
    | .ok apiResource =>
      let isClusterScoped := !apiResource.namespaced
      match env.vGetCRD (crdNameOf apiResource gvk) with
      | .error _ => some (isClusterScoped, false, none)
      | .ok crdDefinition =>
        some (isClusterScoped, versionHasStatus crdDefinition.versions gvk.version, none)
    | .error e =>
      if !e.isNotFound then
        some (false, false, some (.wrap (strOf "check virtual cluster kind") e))
      else
        match ConvertKindToResource env.pDiscovery gvk with
        | .error e =>
          if e.isNotFound then
            some (false, false, some (.msg (strOf "seems like resource " ++ gvk.goString ++
              strOf " is not available in the physical cluster or vcluster has no access to it")))
          else
            some (false, false, some e)
        | .ok groupVersionResource =>
          match env.newPClientErr with
          | some e => some (false, false, some e)
          | none =>
            match env.pGetCRD groupVersionResource.groupResourceString with
            | .error e => some (false, false, some (.wrap (strOf "retrieve crd in host cluster") e))
            | .ok crd0 =>
              let crd1 : CRD :=
                { crd0 with
                  uid := [], resourceVersion := [],
                  hasManagedFields := false, hasOwnerReferences := false, conditions := [],
                  preserveUnknownFields := false, hasConversion := false }
              let newVersions : List CRDVersion :=
                match crd1.versions.find? (fun v => v.name == gvk.version) with
                | some v => [{ v with served := true, storage := true }]
                | none => []
              let hasStatusSubresource := versionHasStatus crd1.versions gvk.version
              let _crd2 : CRD := { crd1 with versions := newVersions }
              let afterCreate : Option (Bool × Bool × Option GoErr) :=
                match waitEstablished env.polls with
                | none => none
                | some (.error e) =>
                  some (false, hasStatusSubresource, some (.wrap (waitWrapMsg gvk) e))
                | some (.ok _) =>
                  some (crd0.scope == strOf "Cluster", hasStatusSubresource, none)
              match env.createErr with
              | some e =>
                if !e.isAlreadyExists then
                  some (false, hasStatusSubresource, some (.wrap (strOf "create crd in virtual cluster") e))
                else afterCreate
              | none => afterCreate

/-! ## Example values used by the claim witnesses -/

/-- An example multi-namespace translator value. -/
def exMNS : MultiNamespace := ⟨strOf "vc-host"⟩

/-- An example sync context with no namespace pins, no synced labels and an
empty (but present) mapping store. -/
def exCtxNone : SyncContext := ⟨fun _ => none, fun _ => false, some []⟩

/-- An example owner object. -/
def exOwner : KObject :=
  ⟨strOf "own", strOf "uid1", strOf "apps/v1", strOf "StatefulSet", []⟩

/-- An example synced object that already has a controller owner reference. -/
def exObj : KObject :=
  ⟨strOf "obj", strOf "uid2", strOf "v1", strOf "Pod",
   [⟨strOf "v1", strOf "Pod", strOf "par", strOf "uid3", some true⟩]⟩

/-- An example label selector with one match label and one requirement. -/
def exSel : LabelSelector :=
  ⟨some [(strOf "a", strOf "b")], [⟨strOf "k", strOf "In", [strOf "x"]⟩]⟩

/-- A key-translation function that never knows a translation. -/
def fMiss : GoStr → GoStr × Bool := fun _ => ([], false)

/-- An example API resource exposing the Widget kind. -/
def widgetRes : APIResource := ⟨strOf "widgets", strOf "example.com", strOf "Widget", true⟩

/-- The example kind identifier. -/
def gvkEx : GVK := ⟨strOf "example.com", strOf "v1", strOf "Widget"⟩

/-- An environment whose status-subresource inspection fetch fails after the
kind was found on the virtual side. -/
def envCex : Env :=
  ⟨none, .ok [widgetRes], fun _ => .error (.backend 0), .ok [], none,
   fun _ => .error (.backend 1), none, []⟩

/-- An example CRD carrying the requested version (with a status subresource)
and an `Established = True` readiness condition. -/
def crdOkEx : CRD :=
  ⟨strOf "u", strOf "rv", true, true, [⟨strOf "Established", strOf "True"⟩], true, true,
   [⟨strOf "v1", false, false, true⟩], strOf "Cluster"⟩

/-- An environment in which the whole mirror path succeeds. -/
def envOk : Env :=
  ⟨none, .ok [], fun _ => .error (.backend 0),
   .ok [widgetRes], none, fun _ => .ok crdOkEx, none, [.ok crdOkEx]⟩

/-- Environment like `envOk`, except the readiness-wait fetch fails. -/
def envBadWait : Env :=
  ⟨none, .ok [], fun _ => .error (.backend 0),
   .ok [widgetRes], none, fun _ => .ok crdOkEx, none, [.error (.backend 7)]⟩

/-! ## Byte-string lemmas -/

theorem replaceAll_nil (old new : GoStr) : replaceAll [] old new = [] := by
  simp [replaceAll]

theorem replaceAll_cons_pos {old : GoStr} (c : Nat) (rest new : GoStr)
    (h : old ≠ [] ∧ hasPfx old (c :: rest) = true) :
    replaceAll (c :: rest) old new = new ++ replaceAll ((c :: rest).drop old.length) old new := by
  rw [replaceAll]
  rw [dif_pos h]

theorem replaceAll_cons_neg {old : GoStr} (c : Nat) (rest new : GoStr)
    (h : ¬(old ≠ [] ∧ hasPfx old (c :: rest) = true)) :
    replaceAll (c :: rest) old new = c :: replaceAll rest old new := by
  rw [replaceAll]
  rw [dif_neg h]

theorem hasPfx_length_le : ∀ (p s : GoStr), hasPfx p s = true → p.length ≤ s.length := by
  intro p
  induction p with
  | nil => simp
  | cons a ps ih =>
    intro s hp
    cases s with
    | nil => simp [hasPfx] at hp
    | cons b ss =>
      simp only [hasPfx, Bool.and_eq_true] at hp
      have := ih ss hp.2
      simp only [List.length_cons]
      omega

theorem replaceAll_length_le_aux :
    ∀ (n : Nat) (s old new : GoStr), s.length ≤ n → new.length ≤ old.length →
      (replaceAll s old new).length ≤ s.length := by
  intro n
  induction n with
  | zero =>
    intro s old new hs _
    have : s = [] := List.length_eq_zero.mp (Nat.le_zero.mp hs)
    subst this
    simp [replaceAll_nil]
  | succ n ih =>
    intro s old new hs hle
    match s with
    | [] => simp [replaceAll_nil]
    | c :: rest =>
      by_cases h : old ≠ [] ∧ hasPfx old (c :: rest) = true
      · rw [replaceAll_cons_pos c rest new h]
        have hOldPos : 0 < old.length := List.length_pos.mpr h.1
        have hOldLe : old.length ≤ (c :: rest).length := hasPfx_length_le old (c :: rest) h.2
        have hdroplen : ((c :: rest).drop old.length).length = (c :: rest).length - old.length := by
          simp [List.length_drop]
        have hrec := ih ((c :: rest).drop old.length) old new
          (by simp only [List.length_drop, List.length_cons] at *; omega) hle
        simp only [List.length_append, List.length_cons] at *
        omega
      · rw [replaceAll_cons_neg c rest new h]
        have hrec := ih rest old new (by simp only [List.length_cons] at hs; omega) hle
        simp only [List.length_cons]
        omega

theorem replaceAll_length_le (s old new : GoStr) (hle : new.length ≤ old.length) :
    (replaceAll s old new).length ≤ s.length :=
  replaceAll_length_le_aux s.length s old new (Nat.le_refl _) hle

theorem hasPfx_self_append : ∀ (p r : GoStr), hasPfx p (p ++ r) = true := by
  intro p
  induction p with
  | nil => intro r; simp [hasPfx]
  | cons a ps ih => intro r; simp [hasPfx, ih r]

theorem hasPfx_ext : ∀ (p u v : GoStr), hasPfx p u = true → hasPfx p (u ++ v) = true := by
  intro p
  induction p with
  | nil => intro u v _; simp [hasPfx]
  | cons a ps ih =>
    intro u v hp
    cases u with
    | nil => simp [hasPfx] at hp
    | cons b us =>
      simp only [hasPfx, Bool.and_eq_true] at hp
      simp only [List.cons_append, hasPfx, Bool.and_eq_true]
      exact ⟨hp.1, ih us v hp.2⟩

theorem containsSub_of_hasPfx (s p : GoStr) (h : hasPfx p s = true) :
    containsSub s p = true := by
  cases s with
  | nil => simpa [containsSub] using h
  | cons c rest => simp [containsSub, h]

theorem containsSub_append_left : ∀ (u v p : GoStr),
    containsSub u p = true → containsSub (u ++ v) p = true := by
  intro u
  induction u with
  | nil =>
    intro v p hp
    simp only [containsSub] at hp
    have : p = [] := by cases p with
      | nil => rfl
      | cons a ps => simp [hasPfx] at hp
    subst this
    apply containsSub_of_hasPfx
    cases v <;> simp [hasPfx]
  | cons c us ih =>
    intro v p hp
    simp only [containsSub, Bool.or_eq_true] at hp ⊢
    cases hp with
    | inl h => exact Or.inl (by simpa using hasPfx_ext p (c :: us) v h)
    | inr h => exact Or.inr (ih v p h)

theorem containsSub_take (s p : GoStr) (n : Nat) (h : containsSub (s.take n) p = true) :
    containsSub s p = true := by
  have := containsSub_append_left (s.take n) (s.drop n) p h
  rwa [List.take_append_drop] at this

theorem hasPfx_pair (a b : Nat) (s : GoStr) (h : hasPfx [a, b] s = true) :
    ∃ r, s = a :: b :: r := by
  match s with
  | [] => simp [hasPfx] at h
  | [c] => simp [hasPfx] at h
  | c :: d :: r =>
    simp only [hasPfx, Bool.and_eq_true, beq_iff_eq] at h
    exact ⟨r, by rw [h.1, h.2.1]⟩

theorem hasPfx_single (a : Nat) (s : GoStr) : hasPfx [a] s = true ↔ s.head? = some a := by
  cases s with
  | nil => simp [hasPfx]
  | cons b ss =>
    simp only [hasPfx, List.head?_cons, Option.some.injEq, Bool.and_eq_true, beq_iff_eq]
    constructor
    · rintro ⟨h1, _⟩
      exact h1.symm
    · intro h
      exact ⟨h.symm, trivial⟩

theorem lastOf_cons_of_ne_nil (c : Nat) (u : GoStr) (h : u ≠ []) :
    lastOf (c :: u) = lastOf u := by
  cases u with
  | nil => exact absurd rfl h
  | cons b rest => rfl

theorem containsPair_append : ∀ (u v : GoStr) (a b : Nat),
    containsSub (u ++ v) [a, b] = true →
    containsSub u [a, b] = true ∨ containsSub v [a, b] = true ∨
      (lastOf u = some a ∧ v.head? = some b) := by
  intro u
  induction u with
  | nil =>
    intro v a b h
    exact Or.inr (Or.inl (by simpa using h))
  | cons c us ih =>
    intro v a b h
    simp only [List.cons_append, containsSub, Bool.or_eq_true] at h
    cases h with
    | inl hp =>
      obtain ⟨r, hr⟩ := hasPfx_pair a b _ hp
      cases us with
      | nil =>
        right; right
        have hr2 : c :: v = a :: b :: r := by simpa using hr
        injection hr2 with hc htl
        subst hc
        subst htl
        exact ⟨by simp [lastOf], by simp⟩
      | cons d uss =>
        left
        have hr2 : c :: d :: (uss ++ v) = a :: b :: r := by simpa using hr
        injection hr2 with hc htl
        injection htl with hd _
        subst hc; subst hd
        exact containsSub_of_hasPfx _ _ (by simp [hasPfx])
    | inr hrest =>
      rcases ih v a b hrest with h1 | h2 | h3
      · left
        simp [containsSub, h1]
      · exact Or.inr (Or.inl h2)
      · right; right
        have hne : us ≠ [] := by
          intro he
          rw [he] at h3
          simp [lastOf] at h3
        rw [lastOf_cons_of_ne_nil c us hne]
        exact h3

theorem containsSub_pair_mem : ∀ (s : GoStr) (a b : Nat),
    containsSub s [a, b] = true → a ∈ s := by
  intro s
  induction s with
  | nil => intro a b h; simp [containsSub, hasPfx] at h
  | cons c rest ih =>
    intro a b h
    simp only [containsSub, Bool.or_eq_true] at h
    cases h with
    | inl hp =>
      obtain ⟨r, hr⟩ := hasPfx_pair a b _ hp
      have : c = a := by injection hr
      simp [this]
    | inr hs => exact List.mem_cons_of_mem c (ih a b hs)

theorem replaceAll_head45 (t : GoStr)
    (h : (replaceAll t [46, 45] [45]).head? = some 45) :
    t.head? = some 45 ∨ hasPfx [46, 45] t = true := by
  match t with
  | [] => simp [replaceAll_nil] at h
  | c :: rest =>
    by_cases hp : ([46, 45] : GoStr) ≠ [] ∧ hasPfx [46, 45] (c :: rest) = true
    · exact Or.inr hp.2
    · rw [replaceAll_cons_neg c rest _ hp] at h
      simp only [List.head?_cons, Option.some.injEq] at h
      exact Or.inl (by simp [h])

theorem replaceAll_no_dotDash_aux :
    ∀ (n : Nat) (t : GoStr), t.length ≤ n → containsSub t [46, 46] = false →
      containsSub (replaceAll t [46, 45] [45]) [46, 45] = false := by
  intro n
  induction n with
  | zero =>
    intro t ht _
    have : t = [] := List.length_eq_zero.mp (Nat.le_zero.mp ht)
    subst this
    simp [replaceAll_nil, containsSub, hasPfx]
  | succ n ih =>
    intro t ht hDD
    match t with
    | [] => simp [replaceAll_nil, containsSub, hasPfx]
    | c :: rest =>
      simp only [containsSub, Bool.or_eq_false_iff] at hDD
      by_cases hp : ([46, 45] : GoStr) ≠ [] ∧ hasPfx [46, 45] (c :: rest) = true
      · rw [replaceAll_cons_pos c rest _ hp]
        obtain ⟨r, hr⟩ := hasPfx_pair 46 45 _ hp.2
        injection hr with hc htl
        subst hc
        have hrest : rest = 45 :: r := htl
        subst hrest
        simp only [List.length_cons] at ht
        have hDDr : containsSub r [46, 46] = false := by
          have := hDD.2
          simp only [containsSub, Bool.or_eq_false_iff] at this
          exact this.2
        have hrec := ih r (by omega) hDDr
        simp only [List.drop_succ_cons, List.drop_zero, List.length_cons, List.length_nil]
        show containsSub (45 :: replaceAll r [46, 45] [45]) [46, 45] = false
        simp only [containsSub, Bool.or_eq_false_iff]
        exact ⟨by simp [hasPfx], hrec⟩
      · rw [replaceAll_cons_neg c rest _ hp]
        simp only [List.length_cons] at ht
        have hrec := ih rest (by omega) hDD.2
        simp only [containsSub, Bool.or_eq_false_iff]
        refine ⟨?_, hrec⟩
        -- the emitted byte cannot start a ".-" in the result
        by_contra hcon
        rw [Bool.not_eq_false] at hcon
        obtain ⟨r2, hr2⟩ := hasPfx_pair 46 45 _ hcon
        injection hr2 with hc2 htl2
        subst hc2
        have hhead : (replaceAll rest [46, 45] [45]).head? = some 45 := by
          rw [htl2]
          simp
        rcases replaceAll_head45 rest hhead with h45 | hpre
        · -- rest starts with 45: the guard would have fired
          apply hp
          refine ⟨by simp, ?_⟩
          cases rest with
          | nil => simp at h45
          | cons d rs =>
            simp only [List.head?_cons, Option.some.injEq] at h45
            subst h45
            simp [hasPfx]
        · -- rest starts with ".-": then t begins "..", contradicting hDD
          obtain ⟨r3, hr3⟩ := hasPfx_pair 46 45 _ hpre
          have : hasPfx [46, 46] (46 :: rest) = true := by
            rw [hr3]
            simp [hasPfx]
          rw [this] at hDD
          simp at hDD

theorem replaceAll_no_dotDash (t : GoStr) (hDD : containsSub t [46, 46] = false) :
    containsSub (replaceAll t [46, 45] [45]) [46, 45] = false :=
  replaceAll_no_dotDash_aux t.length t (Nat.le_refl _) hDD

theorem hexEncode_mem_ge (bs : List Nat) : ∀ x ∈ hexEncode bs, 48 ≤ x := by
  intro x hx
  simp only [hexEncode, List.mem_flatten, List.mem_map] at hx
  obtain ⟨l, ⟨b, _, hb⟩, hxl⟩ := hx
  subst hb
  simp only [List.mem_cons, List.not_mem_nil, or_false] at hxl
  have hd : ∀ m, 48 ≤ hexDigit m := by
    intro m
    unfold hexDigit
    split <;> omega
  rcases hxl with h | h <;> (subst h; exact hd _)

theorem shortened_no_dotdot (j hx : GoStr)
    (hj : containsSub j [46, 46] = false)
    (hhx : ∀ x ∈ hx, 48 ≤ x) :
    containsSub (j.take 52 ++ [45] ++ hx) [46, 46] = false := by
  by_contra hcon
  rw [Bool.not_eq_false] at hcon
  rw [List.append_assoc] at hcon
  rcases containsPair_append _ _ _ _ hcon with h1 | h2 | h3
  · exact absurd (containsSub_take j [46, 46] 52 h1) (by simp [hj])
  · simp only [List.singleton_append, containsSub, Bool.or_eq_true] at h2
    rcases h2 with h2a | h2b
    · obtain ⟨r, hr⟩ := hasPfx_pair 46 46 _ h2a
      injection hr
      omega
    · have := containsSub_pair_mem hx 46 46 h2b
      have := hhx 46 this
      omega
  · have := h3.2
    simp only [List.singleton_append, List.head?_cons, Option.some.injEq] at this
    omega

/-- Claim C1: For every list of input strings, `SafeConcatName` returns a string
of at most 63 bytes; and when the `"-"`-joined concatenation of the inputs is
itself at most 63 bytes long, it is returned unchanged. -/
theorem safeConcatName_spec (name : List GoStr) :
    (SafeConcatName name).length ≤ 63 ∧
      ((goJoin [45] name).length ≤ 63 → SafeConcatName name = goJoin [45] name) := by
  simp only [SafeConcatName]
  by_cases hlen : (goJoin [45] name).length > 63
  · rw [if_pos hlen]
    constructor
    · have h1 := replaceAll_length_le
        ((goJoin [45] name).take 52 ++ [45] ++ (hexEncode (sha256 (goJoin [45] name))).take 10)
        [46, 45] [45] (by simp)
      have h2 : ((goJoin [45] name).take 52).length ≤ 52 := by
        rw [List.length_take]
        exact Nat.min_le_left _ _
      have h3 : ((hexEncode (sha256 (goJoin [45] name))).take 10).length ≤ 10 := by
        rw [List.length_take]
        exact Nat.min_le_left _ _
      simp only [List.length_append, List.length_cons, List.length_nil] at h1 ⊢
      omega
    · intro hc
      omega
  · rw [if_neg hlen]
    exact ⟨by omega, fun _ => rfl⟩

theorem safeConcatName_spec_witness :
    (SafeConcatName [strOf "abc"]).length ≤ 63 ∧
      SafeConcatName [strOf "abc"] = goJoin [45] [strOf "abc"] :=
  ⟨(safeConcatName_spec [strOf "abc"]).1, (safeConcatName_spec [strOf "abc"]).2 (by decide)⟩

/-- Claim C5 counterexample: The claim "the output of `SafeConcatName` never
contains the substring `".-"`" fails at the concrete input `[".-"]`: the join
is 2 bytes long, so it is returned verbatim, and it contains `".-"`. -/
theorem safeConcatName_dotDash_cex :
    containsSub (SafeConcatName [strOf ".-"]) (strOf ".-") = true := by decide

/-- Claim C5 (amended): For every list of input strings whose `"-"`-joined
concatenation contains neither `".-"` nor `".."`, the output of
`SafeConcatName` never contains the substring `".-"`: a short join containing
no `".-"` is returned verbatim; a long join is shortened and the `".-"`
replacement removes every occurrence without (absent `".."`) creating a new
one. -/
theorem safeConcatName_no_dotDash (name : List GoStr)
    (h1 : containsSub (goJoin [45] name) (strOf ".-") = false)
    (h2 : containsSub (goJoin [45] name) (strOf "..") = false) :
    containsSub (SafeConcatName name) (strOf ".-") = false := by
  have e1 : strOf ".-" = [46, 45] := by decide
  have e2 : strOf ".." = [46, 46] := by decide
  rw [e1] at h1 ⊢
  rw [e2] at h2
  simp only [SafeConcatName]
  by_cases hlen : (goJoin [45] name).length > 63
  · rw [if_pos hlen]
    apply replaceAll_no_dotDash
    apply shortened_no_dotdot _ _ h2
    intro x hx
    exact hexEncode_mem_ge _ x (List.take_subset _ _ hx)
  · rw [if_neg hlen]
    exact h1

theorem safeConcatName_no_dotDash_witness :
    containsSub (goJoin [45] [strOf "abc"]) (strOf ".-") = false ∧
      containsSub (goJoin [45] [strOf "abc"]) (strOf "..") = false ∧
      containsSub (SafeConcatName [strOf "abc"]) (strOf ".-") = false :=
  ⟨by decide, by decide, safeConcatName_no_dotDash [strOf "abc"] (by decide) (by decide)⟩

/-- Claim C6: In multi-namespace mode, for every virtual namespace not covered
by an administrator-declared namespace mapping, `HostNamespace` returns the
namespace prefix `"vcluster"`, `"-"`, the first 8 hex characters of the
SHA-256 digest of the virtual namespace, `"-"`, and the first 8 hex characters
of the SHA-256 digest of (current host namespace + `"x"` + vcluster identity);
being a pure function, re-deriving it for the same inputs yields the same
result. -/
theorem hostNamespace_spec (s : MultiNamespace) (vclusterName : GoStr) (ctx : SyncContext)
    (vNamespace : GoStr) (h : ctx.vnsMapping vNamespace = none) :
    s.HostNamespace vclusterName ctx vNamespace =
      strOf "vcluster" ++ [45] ++ (hexEncode (sha256 vNamespace)).take 8 ++ [45] ++
        (hexEncode (sha256 (s.currentNamespace ++ strOf "x" ++ vclusterName))).take 8 ∧
    s.HostNamespace vclusterName ctx vNamespace = s.HostNamespace vclusterName ctx vNamespace := by
  refine ⟨?_, rfl⟩
  simp only [MultiNamespace.HostNamespace, h, hostNamespace, getNamespaceSuffix,
    MultiNamespace.getNamespacePfx]

theorem hostNamespace_spec_witness :
    exCtxNone.vnsMapping (strOf "default") = none ∧
    exMNS.HostNamespace (strOf "my-vc") exCtxNone (strOf "default") =
      strOf "vcluster" ++ [45] ++ (hexEncode (sha256 (strOf "default"))).take 8 ++ [45] ++
        (hexEncode (sha256 (exMNS.currentNamespace ++ strOf "x" ++ strOf "my-vc"))).take 8 :=
  ⟨rfl, (hostNamespace_spec exMNS (strOf "my-vc") exCtxNone (strOf "default") rfl).1⟩

/-- Claim C8: `HostNameCluster` applied to the empty string returns the empty
string; for every non-empty name it returns `SafeConcatName` of
`("vcluster", name, "x", current host namespace, "x", vcluster identity)`. -/
theorem hostNameCluster_spec (s : MultiNamespace) (vclusterName name : GoStr) :
    (name = [] → s.HostNameCluster vclusterName name = []) ∧
    (name ≠ [] → s.HostNameCluster vclusterName name =
      SafeConcatName [strOf "vcluster", name, strOf "x", s.currentNamespace, strOf "x",
        vclusterName]) := by
  constructor
  · intro h
    simp [MultiNamespace.HostNameCluster, h]
  · intro h
    simp [MultiNamespace.HostNameCluster, h]

theorem hostNameCluster_spec_witness :
    exMNS.HostNameCluster (strOf "my-vc") [] = [] ∧
    strOf "web" ≠ [] ∧
    exMNS.HostNameCluster (strOf "my-vc") (strOf "web") =
      SafeConcatName [strOf "vcluster", strOf "web", strOf "x", exMNS.currentNamespace,
        strOf "x", strOf "my-vc"] :=
  ⟨(hostNameCluster_spec exMNS (strOf "my-vc") []).1 rfl, by decide,
   (hostNameCluster_spec exMNS (strOf "my-vc") (strOf "web")).2 (by decide)⟩

/-- Claim C9: `VirtualLabelsMap` and `HostLabelsMap` are nil-preserving: for
every translator, context, target map, namespace and exclusion list, a nil
source-side label map yields nil (not an empty map). -/
theorem labelsMap_nil_spec (tr : Translator) (ctx : SyncContext) (vclusterName : GoStr)
    (other : Option GoMap) (vNamespace : GoStr) (excluded : List GoStr) :
    VirtualLabelsMap tr ctx none other vNamespace excluded = none ∧
    HostLabelsMap tr ctx vclusterName none other vNamespace = none :=
  ⟨rfl, rfl⟩

/-- Claim C10: `GetOwnerReference` returns no owner references exactly when the
configured owner is unset or lacks a non-empty name, UID, API version or kind;
otherwise it returns one reference carrying the owner's API version, kind,
name and UID, whose controller flag is true iff the passed-in object already
has a controller owner reference. -/
theorem getOwnerReference_spec (owner object : Option KObject) :
    (GetOwnerReference owner object = [] ↔
      owner = none ∨ ∃ o, owner = some o ∧
        (o.name = [] ∨ o.uid = [] ∨ o.apiVersion = [] ∨ o.kind = [])) ∧
    (∀ o, owner = some o → o.name ≠ [] → o.uid ≠ [] → o.apiVersion ≠ [] → o.kind ≠ [] →
      GetOwnerReference owner object =
        [{ apiVersion := o.apiVersion, kind := o.kind, name := o.name, uid := o.uid,
           controller := some (object.elim false fun obj => (GetControllerOf obj).isSome) }]) ∧
    ((object.elim false fun obj => (GetControllerOf obj).isSome) = true ↔
      ∃ obj, object = some obj ∧ ∃ r ∈ obj.ownerReferences, r.controller = some true) := by
  refine ⟨?_, ?_, ?_⟩
  · cases owner with
    | none => simp [GetOwnerReference]
    | some o =>
      simp only [GetOwnerReference, Option.some.injEq]
      by_cases h1 : o.name = [] <;> by_cases h2 : o.uid = [] <;>
        by_cases h3 : o.apiVersion = [] <;> by_cases h4 : o.kind = [] <;>
        simp [h1, h2, h3, h4]
  · intro o ho h1 h2 h3 h4
    subst ho
    cases object with
    | none => simp [GetOwnerReference, h1, h2, h3, h4, Option.elim]
    | some obj => simp [GetOwnerReference, h1, h2, h3, h4, Option.elim]
  · cases object with
    | none => simp [Option.elim]
    | some obj =>
      simp [Option.elim, GetControllerOf, List.find?_isSome]

theorem getOwnerReference_spec_witness :
    GetOwnerReference (some exOwner) (some exObj) =
      [{ apiVersion := exOwner.apiVersion, kind := exOwner.kind, name := exOwner.name,
         uid := exOwner.uid,
         controller := some ((some exObj).elim false fun obj => (GetControllerOf obj).isSome) }] :=
  (getOwnerReference_spec (some exOwner) (some exObj)).2.1 exOwner rfl
    (by decide) (by decide) (by decide) (by decide)

/-- Claim C3: The metadata merge with source `{a:1, b:2}`, target `{b:9, c:3}`,
no prior managed keys and no exclusions yields the map `{a:1, b:2, c:3}` and
the managed-key list `"a\nb"`; re-running the merge with source `{a:1}` and
target equal to that previous result carrying managed keys `"a\nb"` yields
`{a:1, c:3}` (b deleted because managed-but-removed, c preserved because never
managed). -/
theorem applyMaps_example :
    (mapCanon (applyMaps [(strOf "a", strOf "1"), (strOf "b", strOf "2")]
        [(strOf "b", strOf "9"), (strOf "c", strOf "3")] ⟨[], []⟩).1 =
      [(strOf "a", strOf "1"), (strOf "b", strOf "2"), (strOf "c", strOf "3")]) ∧
    (applyMaps [(strOf "a", strOf "1"), (strOf "b", strOf "2")]
        [(strOf "b", strOf "9"), (strOf "c", strOf "3")] ⟨[], []⟩).2 = strOf "a\nb" ∧
    goSplit (strOf "a\nb") (strOf "\n") = [strOf "a", strOf "b"] ∧
    (mapCanon (applyMaps [(strOf "a", strOf "1")]
        (applyMaps [(strOf "a", strOf "1"), (strOf "b", strOf "2")]
          [(strOf "b", strOf "9"), (strOf "c", strOf "3")] ⟨[], []⟩).1
        ⟨[strOf "a", strOf "b"], []⟩).1 =
      [(strOf "a", strOf "1"), (strOf "c", strOf "3")]) := by
  refine ⟨by decide, by decide, ?_, by decide⟩
  have e1 : strOf "a\nb" = [97, 10, 98] := by decide
  have e2 : strOf "\n" = [10] := by decide
  have e3 : strOf "a" = [97] := by decide
  have e4 : strOf "b" = [98] := by decide
  rw [e1, e2, e3, e4]
  simp [goSplit, hasPfx]

/-! ## Map lemmas for the selector rewriting claim -/

theorem mapGet_none_all (m : GoMap) (k : GoStr) (h : mapGet m k = none) :
    ∀ kv ∈ m, (kv.1 == k) = false := by
  intro kv hkv
  have hf : m.find? (fun kv => kv.1 == k) = none := by
    simpa [mapGet, Option.map_eq_none'] using h
  have := List.find?_eq_none.mp hf kv hkv
  simpa using this

theorem mapSet_eq_append (acc : GoMap) (k v : GoStr) (h : mapGet acc k = none) :
    mapSet acc k v = acc ++ [(k, v)] := by
  have hany : acc.any (fun kv => kv.1 == k) = false := by
    rw [List.any_eq_false]
    intro kv hkv
    simp [mapGet_none_all acc k h kv hkv]
  simp [mapSet, hany]

theorem mapGet_append_of_none (u v : GoMap) (k : GoStr) (h : mapGet u k = none) :
    mapGet (u ++ v) k = mapGet v k := by
  have hf : u.find? (fun kv => kv.1 == k) = none := by
    simpa [mapGet, Option.map_eq_none'] using h
  simp [mapGet, List.find?_append, hf]

theorem foldl_mapSet_rebuild : ∀ (m acc : GoMap),
    (∀ kv ∈ m, mapGet acc kv.1 = none) → keysNodup m = true →
    m.foldl (fun a kv => mapSet a kv.1 kv.2) acc = acc ++ m := by
  intro m
  induction m with
  | nil =>
    intro acc _ _
    simp
  | cons kv m ih =>
    intro acc hnone hnd
    simp only [List.foldl_cons]
    rw [mapSet_eq_append acc kv.1 kv.2 (hnone kv (by simp))]
    simp only [keysNodup, Bool.and_eq_true, Bool.not_eq_true'] at hnd
    rw [ih (acc ++ [(kv.1, kv.2)]) ?_ hnd.2]
    · simp
    · intro kv2 hkv2
      rw [mapGet_append_of_none _ _ _ (hnone kv2 (List.mem_cons_of_mem kv hkv2))]
      have hne : (kv2.1 == kv.1) = false := by
        have := List.any_eq_false.mp hnd.1 kv2 hkv2
        simpa using this
      have hne2 : (kv.1 == kv2.1) = false := by
        rw [beq_eq_false_iff_ne] at hne ⊢
        exact fun he => hne he.symm
      simp [mapGet, List.find?, hne2]

/-- Claim C4 counterexample: The claim that, in the host-to-virtual direction, a
key whose translation is unknown is surfaced as having no equivalent (rather
than kept) fails: with a translation function reporting no known translation
for every key, `virtualLabelSelector` returns the selector unchanged — the
untranslated key `"app"` is kept in the output selector. -/
theorem virtualLabelSelector_cex :
    virtualLabelSelector (fun _ => (([] : GoStr), false))
        (some ⟨some [(strOf "app", strOf "web")], []⟩) =
      some ⟨some [(strOf "app", strOf "web")], []⟩ ∧
    mapGet ((virtualLabelSelector (fun _ => (([] : GoStr), false))
        (some ⟨some [(strOf "app", strOf "web")], []⟩)).getD
          ⟨none, []⟩ |>.matchLabels.getD []) (strOf "app") = some (strOf "web") := by
  decide

/-- Claim C4 (amended): In the host-to-virtual direction
(`virtualLabelSelector`), a key for which the key-translation function
reports no known translation is kept unchanged in the output selector — the
same best-effort passthrough as the virtual-to-host direction: every
match-expression requirement with an untranslatable key reappears unchanged,
and when no key of the match-labels map is translatable (and its keys are
distinct) the match-labels map is returned unchanged. -/
theorem virtualLabelSelector_miss_keeps (f : GoStr → GoStr × Bool) (ls : LabelSelector) :
    ∃ ls2, virtualLabelSelector f (some ls) = some ls2 ∧
      (∀ r ∈ ls.matchExpressions, (f r.key).2 = false → r ∈ ls2.matchExpressions) ∧
      ((∀ kv ∈ ls.matchLabels.getD [], (f kv.1).2 = false) →
        keysNodup (ls.matchLabels.getD []) = true →
        ls2.matchLabels.getD [] = ls.matchLabels.getD []) := by
  refine ⟨_, rfl, ?_, ?_⟩
  · intro r hr hmiss
    simp only [virtualLabelSelector]
    apply List.mem_map.mpr
    exact ⟨r, hr, by simp [hmiss]⟩
  · intro hall hnd
    cases hml : ls.matchLabels with
    | none => simp [virtualLabelSelector, hml]
    | some m =>
      rw [hml] at hall hnd
      simp only [Option.getD_some] at hall hnd
      simp only [virtualLabelSelector, hml, Option.getD_some]
      rw [List.foldl_ext _ (fun a kv => mapSet a kv.1 kv.2) [] ?_]
      · rw [foldl_mapSet_rebuild m [] (fun _ _ => rfl) hnd]
        simp
      · intro a kv hkv
        simp [hall kv hkv]

theorem virtualLabelSelector_miss_keeps_witness :
    ∃ ls2, virtualLabelSelector fMiss (some exSel) = some ls2 ∧
      (⟨strOf "k", strOf "In", [strOf "x"]⟩ : LabelSelectorRequirement) ∈ ls2.matchExpressions ∧
      ls2.matchLabels.getD [] = exSel.matchLabels.getD [] := by
  obtain ⟨ls2, he, hr, hm⟩ := virtualLabelSelector_miss_keeps fMiss exSel
  exact ⟨ls2, he, hr _ (by decide) (by decide), hm (by decide) (by decide)⟩

/-! ## Lemmas for the cluster-label round trip -/

theorem take_append_of_le : ∀ (P r : GoStr) (n : Nat), P.length ≤ n →
    (P ++ r).take n = P ++ r.take (n - P.length) := by
  intro P
  induction P with
  | nil => intro r n _; simp
  | cons a P ih =>
    intro r n hn
    cases n with
    | zero => simp at hn
    | succ n =>
      simp only [List.cons_append, List.take_succ_cons, List.length_cons]
      rw [ih r n (by simp at hn; omega)]
      simp [Nat.succ_sub_succ]

theorem replaceAll_append_keep : ∀ (P r : GoStr), (∀ a ∈ P, a ≠ 45) → lastOf P ≠ some 46 →
    replaceAll (P ++ r) [46, 45] [45] = P ++ replaceAll r [46, 45] [45] := by
  intro P
  induction P with
  | nil =>
    intro r _ _
    simp
  | cons a P ih =>
    intro r h45 hlast
    have hlast2 : lastOf P ≠ some 46 := by
      cases hP : P with
      | nil => simp [lastOf]
      | cons b Q =>
        rw [← hP]
        intro hcon
        apply hlast
        rw [lastOf_cons_of_ne_nil a P (by rw [hP]; simp)]
        exact hcon
    have hguard : ¬(([46, 45] : GoStr) ≠ [] ∧ hasPfx [46, 45] (a :: (P ++ r)) = true) := by
      rintro ⟨-, hpfx⟩
      obtain ⟨r2, hr2⟩ := hasPfx_pair 46 45 _ hpfx
      injection hr2 with hc htl
      cases hP : P with
      | nil =>
        apply hlast
        rw [hP]
        simp [lastOf, hc]
      | cons b Q =>
        have hb : b = 45 := by
          rw [hP] at htl
          injection htl
        exact absurd hb (h45 b (by rw [hP]; simp))
    rw [List.cons_append, replaceAll_cons_neg a (P ++ r) [45] hguard]
    rw [ih r (fun x hx => h45 x (List.mem_cons_of_mem a hx)) hlast2]
    rfl

theorem goJoin_cons_ex (sep P : GoStr) (rest : List GoStr) :
    ∃ r, goJoin sep (P :: rest) = P ++ r := by
  cases rest with
  | nil => exact ⟨[], by simp [goJoin]⟩
  | cons y ys => exact ⟨sep ++ goJoin sep (y :: ys), by simp [goJoin]⟩

theorem safeConcat_hasPfx (P : GoStr) (rest : List GoStr)
    (h45 : ∀ a ∈ P, a ≠ 45) (hlast : lastOf P ≠ some 46) (hlen : P.length ≤ 52) :
    hasPfx P (SafeConcatName (P :: rest)) = true := by
  obtain ⟨r, hr⟩ := goJoin_cons_ex [45] P rest
  simp only [SafeConcatName, hr]
  by_cases hl : (P ++ r).length > 63
  · rw [if_pos hl]
    rw [take_append_of_le P r 52 hlen, List.append_assoc, List.append_assoc]
    rw [replaceAll_append_keep P _ h45 hlast]
    exact hasPfx_self_append P _
  · rw [if_neg hl]
    exact hasPfx_self_append P r

theorem ne_nil_of_hasPfx {p s : GoStr} (h : hasPfx p s = true) (hp : p ≠ []) : s ≠ [] := by
  cases p with
  | nil => exact absurd rfl hp
  | cons a ps =>
    cases s with
    | nil => simp [hasPfx] at h
    | cons b ss => simp

theorem find?_mapReplace (m : GoMap) (k v : GoStr)
    (h : m.any (fun kv => kv.1 == k) = true) :
    mapGet (m.map (fun kv => if kv.1 == k then (kv.1, v) else kv)) k = some v := by
  induction m with
  | nil => simp at h
  | cons kv m ih =>
    by_cases hk : (kv.1 == k) = true
    · simp only [List.map_cons, if_pos hk]
      simp [mapGet, List.find?_cons, hk]
    · have h2 : m.any (fun kv2 => kv2.1 == k) = true := by
        simp only [List.any_cons, Bool.or_eq_true] at h
        rcases h with h | h
        · exact absurd h hk
        · exact h
      simp only [List.map_cons, if_neg hk]
      have := ih h2
      simpa [mapGet, List.find?_cons, hk] using this

theorem mapGet_mapSet (m : GoMap) (k v : GoStr) : mapGet (mapSet m k v) k = some v := by
  by_cases h : m.any (fun kv => kv.1 == k) = true
  · simp only [mapSet, if_pos h]
    exact find?_mapReplace m k v h
  · simp only [mapSet, if_neg h]
    have hf : m.find? (fun kv => kv.1 == k) = none := by
      rw [List.find?_eq_none]
      intro x hx hpx
      exact h (List.any_eq_true.mpr ⟨x, hx, hpx⟩)
    simp [mapGet, List.find?_append, hf, List.find?]

/-- Claim C2: In multi-namespace mode, for every cluster-scoped virtual label
key, translating it to a host key with `HostLabelCluster` and back with
`VirtualLabelCluster` through the same mapping store returns the original key
as translatable (`found = true`). The hypotheses exclude the degenerate
configurations: the store is present, the key is non-empty, and the "always
synced" label set does not capture the freshly derived host key. -/
theorem labelCluster_roundtrip (s : MultiNamespace) (vclusterName : GoStr) (ctx : SyncContext)
    (key : GoStr) (hstore : ctx.store.isSome) (hkey : key ≠ [])
    (hsync : ctx.syncedLabels key = false →
      ctx.syncedLabels (hostLabelCluster key s.currentNamespace vclusterName) = false) :
    (s.VirtualLabelCluster (s.HostLabelCluster vclusterName ctx key).2
        (s.HostLabelCluster vclusterName ctx key).1).1 = key ∧
    (s.VirtualLabelCluster (s.HostLabelCluster vclusterName ctx key).2
        (s.HostLabelCluster vclusterName ctx key).1).2.1 = true := by
  by_cases hs : ctx.syncedLabels key = true
  · simp [MultiNamespace.HostLabelCluster, MultiNamespace.VirtualLabelCluster,
      keyMatchesSyncedLabels, hs]
  · rw [Bool.not_eq_true] at hs
    obtain ⟨st, hst⟩ := Option.isSome_iff_exists.mp hstore
    have hsyncH := hsync hs
    have hpfx : hasPfx LabelPfx (hostLabelCluster key s.currentNamespace vclusterName) = true := by
      unfold hostLabelCluster
      apply safeConcat_hasPfx
      · decide
      · decide
      · decide
    have hHne : hostLabelCluster key s.currentNamespace vclusterName ≠ [] :=
      ne_nil_of_hasPfx hpfx (by decide)
    have hHost : s.HostLabelCluster vclusterName ctx key =
        (hostLabelCluster key s.currentNamespace vclusterName,
          SyncContext.mk ctx.vnsMapping ctx.syncedLabels
            (some (mapSet st (hostLabelCluster key s.currentNamespace vclusterName) key))) := by
      simp only [MultiNamespace.HostLabelCluster, keyMatchesSyncedLabels, hs,
        Bool.false_eq_true, if_false]
      simp only [recordLabelCluster, hst]
      rw [if_neg (by simp [hkey, hHne])]
    rw [hHost]
    simp only [MultiNamespace.VirtualLabelCluster, keyMatchesSyncedLabels, hsyncH,
      Bool.false_eq_true, if_false, hpfx, Bool.not_true, storeHostToVirtualLabelCluster,
      mapGet_mapSet]
    constructor <;> trivial

theorem labelCluster_roundtrip_witness :
    exCtxNone.store.isSome = true ∧ strOf "team" ≠ [] ∧
    (exMNS.VirtualLabelCluster (exMNS.HostLabelCluster (strOf "my-vc") exCtxNone (strOf "team")).2
        (exMNS.HostLabelCluster (strOf "my-vc") exCtxNone (strOf "team")).1).1 = strOf "team" ∧
    (exMNS.VirtualLabelCluster (exMNS.HostLabelCluster (strOf "my-vc") exCtxNone (strOf "team")).2
        (exMNS.HostLabelCluster (strOf "my-vc") exCtxNone (strOf "team")).1).2.1 = true := by
  have h := labelCluster_roundtrip exMNS (strOf "my-vc") exCtxNone (strOf "team")
    (by decide) (by decide) (fun _ => rfl)
  exact ⟨by decide, by decide, h.1, h.2⟩

/-! ## Schema reconciler error surfacing -/

theorem isNotFound_iff (e : GoErr) : e.isNotFound = true ↔ e = .notFound := by
  cases e <;> simp [GoErr.isNotFound]

theorem isAlreadyExists_iff (e : GoErr) : e.isAlreadyExists = true ↔ e = .alreadyExists := by
  cases e <;> simp [GoErr.isAlreadyExists]

/-- Claim C7 counterexample: The claim that a failed backend fetch always
surfaces as a non-nil error fails: when the kind already exists in the
virtual cluster and the fetch of its CRD (for status-subresource inspection)
fails, `EnsureCRDFromPhysicalCluster` logs the error and returns a nil error
with the flags computed so far (the source's lines 527-531). -/
theorem ensureCRD_swallows_cex :
    envCex.vGetCRD (crdNameOf widgetRes gvkEx) = .error (.backend 0) ∧
    EnsureCRDFromPhysicalCluster envCex gvkEx = some (false, false, none) :=
  ⟨rfl, rfl⟩

/-- Claim C7 (amended): `EnsureCRDFromPhysicalCluster` returns a nil error only
when either (a) the kind already existed in the virtual cluster (in which
case the status-subresource inspection fetch is the one failure that is
logged and swallowed), or (b) the whole mirror path succeeded: discovery
resolved the kind, the host fetch succeeded, creation succeeded or hit
"already exists", and the readiness wait ended established. Moreover a
readiness-wait failure surfaces as a wrapped error naming the kind. -/
theorem ensureCRD_error_contract (env : Env) (gvk : GVK) :
    (∀ res, EnsureCRDFromPhysicalCluster env gvk = some res → res.2.2 = none →
      (env.newVClientErr = none ∧ ∃ r, KindExists env.vDiscovery gvk = Except.ok r) ∨
      (env.newVClientErr = none ∧ KindExists env.vDiscovery gvk = Except.error GoErr.notFound ∧
        ∃ gvr, ConvertKindToResource env.pDiscovery gvk = Except.ok gvr ∧
          env.newPClientErr = none ∧
          (∃ crd, env.pGetCRD gvr.groupResourceString = Except.ok crd) ∧
          (env.createErr = none ∨ env.createErr = some GoErr.alreadyExists) ∧
          waitEstablished env.polls = some (Except.ok ()))) ∧
    (∀ e gvr crd, env.newVClientErr = none →
      KindExists env.vDiscovery gvk = Except.error GoErr.notFound →
      ConvertKindToResource env.pDiscovery gvk = Except.ok gvr →
      env.newPClientErr = none →
      env.pGetCRD gvr.groupResourceString = Except.ok crd →
      (env.createErr = none ∨ env.createErr = some GoErr.alreadyExists) →
      waitEstablished env.polls = some (Except.error e) →
      EnsureCRDFromPhysicalCluster env gvk =
        some (false, versionHasStatus crd.versions gvk.version,
          some (GoErr.wrap (waitWrapMsg gvk) e))) := by
  constructor
  · intro res hres hnil
    simp only [EnsureCRDFromPhysicalCluster] at hres
    cases hnv : env.newVClientErr with
    | some e =>
      simp only [hnv, Option.some.injEq] at hres
      rw [← hres] at hnil
      simp at hnil
    | none =>
      simp only [hnv] at hres
      cases hk : KindExists env.vDiscovery gvk with
      | ok r => exact Or.inl ⟨rfl, r, rfl⟩
      | error e =>
        simp only [hk] at hres
        by_cases hnf : e.isNotFound = true
        · rw [isNotFound_iff] at hnf
          subst hnf
          rw [show (!GoErr.notFound.isNotFound) = false from rfl] at hres
          simp only [Bool.false_eq_true, if_false] at hres
          cases hcv : ConvertKindToResource env.pDiscovery gvk with
          | error e2 =>
            simp only [hcv] at hres
            by_cases hnf2 : e2.isNotFound = true
            · simp [hnf2] at hres
              subst hres
              simp at hnil
            · rw [Bool.not_eq_true] at hnf2
              simp [hnf2] at hres
              subst hres
              simp at hnil
          | ok gvr =>
            simp only [hcv] at hres
            cases hnp : env.newPClientErr with
            | some e3 =>
              simp only [hnp, Option.some.injEq] at hres
              rw [← hres] at hnil
              simp at hnil
            | none =>
              simp only [hnp] at hres
              cases hpg : env.pGetCRD gvr.groupResourceString with
              | error e4 =>
                simp only [hpg, Option.some.injEq] at hres
                rw [← hres] at hnil
                simp at hnil
              | ok crd0 =>
                simp only [hpg] at hres
                have hafter : ∀ hss : Bool,
                    (match waitEstablished env.polls with
                      | none => none
                      | some (.error e) =>
                        some (false, hss, some (.wrap (waitWrapMsg gvk) e))
                      | some (.ok _) =>
                        some (crd0.scope == strOf "Cluster", hss, none)) = some res →
                    waitEstablished env.polls = some (Except.ok ()) := by
                  intro hss hres2
                  cases hw : waitEstablished env.polls with
                  | none => simp [hw] at hres2
                  | some w =>
                    cases w with
                    | error e5 =>
                      simp only [hw, Option.some.injEq] at hres2
                      rw [← hres2] at hnil
                      simp at hnil
                    | ok u => rfl
                cases hce : env.createErr with
                | some e6 =>
                  simp only [hce] at hres
                  by_cases hae : e6.isAlreadyExists = true
                  · rw [isAlreadyExists_iff] at hae
                    subst hae
                    simp only [GoErr.isAlreadyExists, Bool.not_true, Bool.false_eq_true,
                      if_false] at hres
                    exact Or.inr ⟨rfl, rfl, gvr, rfl, rfl, ⟨crd0, hpg⟩, Or.inr rfl,
                      hafter _ hres⟩
                  · simp only [Bool.not_eq_true] at hae
                    simp only [hae, Bool.not_false, if_true, Option.some.injEq] at hres
                    rw [← hres] at hnil
                    simp at hnil
                | none =>
                  simp only [hce] at hres
                  exact Or.inr ⟨rfl, rfl, gvr, rfl, rfl, ⟨crd0, hpg⟩, Or.inl rfl,
                    hafter _ hres⟩
        · rw [Bool.not_eq_true] at hnf
          simp only [hnf, Bool.not_false, if_true, Option.some.injEq] at hres
          rw [← hres] at hnil
          simp at hnil
  · intro e gvr crd hnv hk hcv hnp hpg hce hwait
    simp only [EnsureCRDFromPhysicalCluster, hnv, hk, hcv, hnp, hpg, hwait,
      GoErr.isNotFound, Bool.not_true, Bool.false_eq_true, if_false]
    rcases hce with hce | hce
    · simp only [hce]
    · simp only [hce, GoErr.isAlreadyExists, Bool.not_true, Bool.false_eq_true, if_false]

theorem ensureCRD_error_contract_witness :
    ((envOk.newVClientErr = none ∧ ∃ r, KindExists envOk.vDiscovery gvkEx = Except.ok r) ∨
     (envOk.newVClientErr = none ∧ KindExists envOk.vDiscovery gvkEx = Except.error GoErr.notFound ∧
       ∃ gvr, ConvertKindToResource envOk.pDiscovery gvkEx = Except.ok gvr ∧
         envOk.newPClientErr = none ∧
         (∃ crd, envOk.pGetCRD gvr.groupResourceString = Except.ok crd) ∧
         (envOk.createErr = none ∨ envOk.createErr = some GoErr.alreadyExists) ∧
         waitEstablished envOk.polls = some (Except.ok ()))) ∧
    EnsureCRDFromPhysicalCluster envBadWait gvkEx =
      some (false, versionHasStatus crdOkEx.versions gvkEx.version,
        some (GoErr.wrap (waitWrapMsg gvkEx)
          (GoErr.wrap (strOf "retrieve crd in virtual cluster") (GoErr.backend 7)))) := by
  constructor
  · exact (ensureCRD_error_contract envOk gvkEx).1 (true, true, none) rfl rfl
  · exact (ensureCRD_error_contract envBadWait gvkEx).2
      (GoErr.wrap (strOf "retrieve crd in virtual cluster") (GoErr.backend 7))
      ⟨gvkEx.group, gvkEx.version, strOf "widgets"⟩ crdOkEx rfl rfl rfl rfl rfl (Or.inl rfl) rfl

end VCluster
